import Mathlib

/-!
Verification development for the rostering engine (Rota-manager).

The definitions below are a shallow embedding of the Python sources:

* `rostering/constraints.py` — the shift catalogue (`basic_shift_catalog`),
  the derived code lists (`PERSON_SHIFT_CODES`, `WORK_SHIFT_CODES`,
  `NIGHT_SHIFT_CODES`, `LONG_SHIFT_CODES`, `HOURS_BY_SHIFT`) and the
  constraints emitted by `add_core_constraints` / `enforce_wte_band`.
* `rostering/solver.py` — `_solve` (night freezing and hints) and
  `solve_roster` (roster extraction and the locum-only fallback).
* `rostering/sequential_solver.py` — `_check_night_rest_ok`,
  `_assign_single_comet_night`, `_assign_unit_night_blocks_with_cpsat`,
  `_solve_weekday_long_days_stage`, `_solve_short_days_stage` and
  `_select_doctor_for_block`.

CP-SAT booleans are modelled as natural numbers constrained to `≤ 1`; a
solver valuation is a plain function from variable coordinates to values,
and "the model's constraints" are propositions over such valuations.
Python float arithmetic in fairness/hours bounds is modelled exactly over
`ℚ` (the `1e-6` fudge terms are carried through verbatim); calendar dates
are modelled as serial day numbers, so `weekday d = d % 7` with the usual
Python convention 0 = Monday … 5 = Saturday, 6 = Sunday.
-/

set_option linter.unnecessarySeqFocus false

namespace Rota

/-- The shift catalogue of `basic_shift_catalog` in `rostering/constraints.py`,
one constructor per catalogue code (including the virtual locum code `LOC`). -/
inductive Shift where
  | SD | LDS | LDR | NS | NR | CMD | CMN
  | CPD | TREG | TSHO | TPCCU | IND
  | LV | SLV | LTFT | OFF | LOC
  deriving DecidableEq, Repr

open Shift

/-- Catalogue hours per shift code, as the integers `HOURS_BY_SHIFT` rounds
them to (all catalogue hours are whole numbers). `OFF`, `LTFT` and `LOC`
carry 0 hours in the catalogue. -/
def shiftHours : Shift → ℕ
  | SD => 9
  | LDS => 13
  | LDR => 13
  | NS => 13
  | NR => 13
  | CMD => 12
  | CMN => 12
  | CPD => 9
  | TREG => 9
  | TSHO => 9
  | TPCCU => 9
  | IND => 9
  | LV => 9
  | SLV => 9
  | LTFT => 0
  | OFF => 0
  | LOC => 0

/-- `PERSON_SHIFT_CODES`: every catalogue code except `LOC`, in the
catalogue's insertion order. -/
def PERSON_SHIFT_CODES : List Shift :=
  [SD, LDS, LDR, NS, NR, CMD, CMN, CPD, TREG, TSHO, TPCCU, IND, LV, SLV, LTFT, OFF]

/-- `WORK_SHIFT_CODES`: person codes that are neither `OFF` nor `LTFT`. -/
def WORK_SHIFT_CODES : List Shift :=
  PERSON_SHIFT_CODES.filter (fun s => decide (s ≠ OFF ∧ s ≠ LTFT))

/-- `NIGHT_SHIFT_CODES = ["NS", "NR", "CMN"]`. -/
def NIGHT_SHIFT_CODES : List Shift := [NS, NR, CMN]

/-- `MANDATORY_SHIFT_CODES = ["LDS", "LDR", "NS", "NR", "CMD", "CMN"]`. -/
def MANDATORY_SHIFT_CODES : List Shift := [LDS, LDR, NS, NR, CMD, CMN]

/-- `LONG_SHIFT_CODES`: working codes of more than 10 hours. -/
def LONG_SHIFT_CODES : List Shift :=
  WORK_SHIFT_CODES.filter (fun s => decide (10 < shiftHours s))

/-- The key set of `HOURS_BY_SHIFT`: the catalogue minus `OFF`, `LTFT`, `LOC`. -/
def HOURS_KEYS : List Shift :=
  [SD, LDS, LDR, NS, NR, CMD, CMN, CPD, TREG, TSHO, TPCCU, IND, LV, SLV]

/-- The non-`OFF` person codes, as iterated by the exclusivity constraint
`sum(x[p,d,s] for s in shift_codes if s != "OFF") <= 1`. -/
def NON_OFF_CODES : List Shift :=
  PERSON_SHIFT_CODES.filter (fun s => decide (s ≠ OFF))

/-- A CP-SAT valuation of the assignment variables `x[p, d, s]`. -/
def Valuation : Type := ℕ → ℕ → Shift → ℕ

/-- Sum of a valuation over a list of codes at a fixed person/day. -/
def codeSum (x : Valuation) (codes : List Shift) (p d : ℕ) : ℕ :=
  (codes.map (fun s => x p d s)).sum

/-- Every assignment variable is a CP-SAT `BoolVar`: its value is 0 or 1. -/
def xBinary (P D : ℕ) (x : Valuation) : Prop :=
  ∀ p, p < P → ∀ d, d < D → ∀ s ∈ PERSON_SHIFT_CODES, x p d s ≤ 1

/-- Constraint (1) of `add_core_constraints`: at most one non-`OFF` shift per
person per day. -/
def exclusivity (P D : ℕ) (x : Valuation) : Prop :=
  ∀ p, p < P → ∀ d, d < D → codeSum x NON_OFF_CODES p d ≤ 1

/-- Roster extraction as performed by `solve_roster`: starting from `OFF`,
the first code of `PERSON_SHIFT_CODES` whose variable is valued 1 wins. -/
def assignedCode (x : Valuation) (p d : ℕ) : Shift :=
  (PERSON_SHIFT_CODES.find? (fun s => x p d s == 1)).getD OFF

/-- Auxiliary valuation of the `night_flag` / `night_block_end` boolean
variables built by `add_core_constraints` for the 46-hour rest rule. -/
structure RestVars where
  nightFlag : ℕ → ℕ → ℕ
  endBlock : ℕ → ℕ → ℕ

/-- The `night_flag` channelling constraints: `nf == sum(x[p,d,s] for s in
NIGHT_SHIFT_CODES)` with `nf` a `BoolVar`. -/
def nightFlagDef (P D : ℕ) (x : Valuation) (v : RestVars) : Prop :=
  ∀ p, p < P → ∀ d, d < D →
    v.nightFlag p d = codeSum x NIGHT_SHIFT_CODES p d ∧ v.nightFlag p d ≤ 1

/-- Constraint (5) of `add_core_constraints` — 46-hour rest after a night
block.  For every person and every day `d` with `d+1` inside the horizon, a
boolean `end_block` is channelled to `night_flag[d] ∧ ¬night_flag[d+1]` (as
the three linear inequalities the source emits) and, when it holds, the sum
of all working codes on `d+1`, and on `d+2` when in range, is forced to 0. -/
def restAfterNights (P D : ℕ) (x : Valuation) (v : RestVars) : Prop :=
  (∀ p, p < P → ∀ d, d < D → d + 1 < D → v.endBlock p d ≤ v.nightFlag p d) ∧
  (∀ p, p < P → ∀ d, d < D → d + 1 < D →
    v.endBlock p d + v.nightFlag p (d + 1) ≤ 1) ∧
  (∀ p, p < P → ∀ d, d < D → d + 1 < D →
    v.nightFlag p d ≤ v.endBlock p d + v.nightFlag p (d + 1)) ∧
  (∀ p, p < P → ∀ d, d < D → d + 1 < D →
    v.endBlock p d = 1 → codeSum x WORK_SHIFT_CODES p (d + 1) = 0) ∧
  (∀ p, p < P → ∀ d, d < D → d + 1 < D → d + 2 < D →
    v.endBlock p d = 1 → codeSum x WORK_SHIFT_CODES p (d + 2) = 0)

/-- Constraint (6) of `add_core_constraints`: for every window of 7
consecutive days fully inside the horizon, the hours-weighted sum of all
`HOURS_BY_SHIFT` variables is at most 72. -/
def rolling72 (P D : ℕ) (x : Valuation) : Prop :=
  ∀ p, p < P → ∀ start, start < D → start + 7 ≤ D →
    ((List.range 7).map (fun k =>
      (HOURS_KEYS.map (fun s => x p (start + k) s * shiftHours s)).sum)).sum ≤ 72

-- The filtered code lists evaluate to these literal lists.

theorem NON_OFF_CODES_eq :
    NON_OFF_CODES =
      [SD, LDS, LDR, NS, NR, CMD, CMN, CPD, TREG, TSHO, TPCCU, IND, LV, SLV, LTFT] := by
  rfl

theorem WORK_SHIFT_CODES_eq :
    WORK_SHIFT_CODES =
      [SD, LDS, LDR, NS, NR, CMD, CMN, CPD, TREG, TSHO, TPCCU, IND, LV, SLV] := by
  rfl

theorem LONG_SHIFT_CODES_eq :
    LONG_SHIFT_CODES = [LDS, LDR, NS, NR, CMD, CMN] := by
  rfl

-- Unfolding lemmas for the concrete code-list sums.

theorem codeSum_nonOff (x : Valuation) (p d : ℕ) :
    codeSum x NON_OFF_CODES p d =
      x p d SD + x p d LDS + x p d LDR + x p d NS + x p d NR + x p d CMD +
      x p d CMN + x p d CPD + x p d TREG + x p d TSHO + x p d TPCCU +
      x p d IND + x p d LV + x p d SLV + x p d LTFT := by
  rw [NON_OFF_CODES_eq]
  simp [codeSum]
  omega

theorem codeSum_work (x : Valuation) (p d : ℕ) :
    codeSum x WORK_SHIFT_CODES p d =
      x p d SD + x p d LDS + x p d LDR + x p d NS + x p d NR + x p d CMD +
      x p d CMN + x p d CPD + x p d TREG + x p d TSHO + x p d TPCCU +
      x p d IND + x p d LV + x p d SLV := by
  rw [WORK_SHIFT_CODES_eq]
  simp [codeSum]
  omega

theorem codeSum_night (x : Valuation) (p d : ℕ) :
    codeSum x NIGHT_SHIFT_CODES p d = x p d NS + x p d NR + x p d CMN := by
  simp [codeSum, NIGHT_SHIFT_CODES]
  omega

/-- If all working-code variables of a person/day are zero, roster extraction
yields `LTFT` or `OFF` there. -/
theorem assignedCode_of_work_zero (x : Valuation) (p d : ℕ)
    (h : codeSum x WORK_SHIFT_CODES p d = 0) :
    assignedCode x p d = LTFT ∨ assignedCode x p d = OFF := by
  rw [codeSum_work] at h
  have hSD : x p d SD = 0 := by omega
  have hLDS : x p d LDS = 0 := by omega
  have hLDR : x p d LDR = 0 := by omega
  have hNS : x p d NS = 0 := by omega
  have hNR : x p d NR = 0 := by omega
  have hCMD : x p d CMD = 0 := by omega
  have hCMN : x p d CMN = 0 := by omega
  have hCPD : x p d CPD = 0 := by omega
  have hTREG : x p d TREG = 0 := by omega
  have hTSHO : x p d TSHO = 0 := by omega
  have hTPCCU : x p d TPCCU = 0 := by omega
  have hIND : x p d IND = 0 := by omega
  have hLV : x p d LV = 0 := by omega
  have hSLV : x p d SLV = 0 := by omega
  unfold assignedCode PERSON_SHIFT_CODES
  simp only [List.find?, hSD, hLDS, hLDR, hNS, hNR, hCMD, hCMN, hCPD, hTREG,
    hTSHO, hTPCCU, hIND, hLV, hSLV]
  cases hLT : (x p d LTFT == 1)
  · simp only [hLT]
    cases hOFF : (x p d OFF == 1) <;> simp [hOFF]
  · simp [hLT]

/-- If roster extraction reports a code other than `OFF`, that code's
variable is valued 1 and the code is a person code. -/
theorem assignedCode_one_of_ne_OFF (x : Valuation) (p d : ℕ)
    (h : assignedCode x p d ≠ OFF) :
    assignedCode x p d ∈ PERSON_SHIFT_CODES ∧ x p d (assignedCode x p d) = 1 := by
  unfold assignedCode at h ⊢
  cases hf : PERSON_SHIFT_CODES.find? (fun s => x p d s == 1) with
  | none => simp [hf] at h
  | some c =>
    have hmem := List.mem_of_find?_eq_some hf
    have hpred := List.find?_some hf
    simp only [beq_iff_eq] at hpred
    simp [hf, hmem, hpred]

/-- Under the exclusivity constraint, a valued `NS` variable is what the
roster extraction reports. -/
theorem assignedCode_eq_NS (x : Valuation) (p d : ℕ)
    (hex : codeSum x NON_OFF_CODES p d ≤ 1) (h1 : x p d NS = 1) :
    assignedCode x p d = NS := by
  rw [codeSum_nonOff] at hex
  have hSD : x p d SD = 0 := by omega
  have hLDS : x p d LDS = 0 := by omega
  have hLDR : x p d LDR = 0 := by omega
  unfold assignedCode PERSON_SHIFT_CODES
  simp [List.find?, hSD, hLDS, hLDR, h1]

/-- Under the exclusivity constraint, a valued `NR` variable is what the
roster extraction reports. -/
theorem assignedCode_eq_NR (x : Valuation) (p d : ℕ)
    (hex : codeSum x NON_OFF_CODES p d ≤ 1) (h1 : x p d NR = 1) :
    assignedCode x p d = NR := by
  rw [codeSum_nonOff] at hex
  have hSD : x p d SD = 0 := by omega
  have hLDS : x p d LDS = 0 := by omega
  have hLDR : x p d LDR = 0 := by omega
  have hNS : x p d NS = 0 := by omega
  unfold assignedCode PERSON_SHIFT_CODES
  simp [List.find?, hSD, hLDS, hLDR, hNS, h1]

/-- Under the exclusivity constraint, a valued `CMN` variable is what the
roster extraction reports. -/
theorem assignedCode_eq_CMN (x : Valuation) (p d : ℕ)
    (hex : codeSum x NON_OFF_CODES p d ≤ 1) (h1 : x p d CMN = 1) :
    assignedCode x p d = CMN := by
  rw [codeSum_nonOff] at hex
  have hSD : x p d SD = 0 := by omega
  have hLDS : x p d LDS = 0 := by omega
  have hLDR : x p d LDR = 0 := by omega
  have hNS : x p d NS = 0 := by omega
  have hNR : x p d NR = 0 := by omega
  have hCMD : x p d CMD = 0 := by omega
  unfold assignedCode PERSON_SHIFT_CODES
  simp [List.find?, hSD, hLDS, hLDR, hNS, hNR, hCMD, h1]

/-- If roster extraction does not report a night code, every night-code
variable of that cell is zero (under exclusivity). -/
theorem nightSum_zero_of_not_assigned (x : Valuation) (p d : ℕ)
    (hex : codeSum x NON_OFF_CODES p d ≤ 1)
    (h : assignedCode x p d ∉ NIGHT_SHIFT_CODES) :
    codeSum x NIGHT_SHIFT_CODES p d = 0 := by
  rw [codeSum_night]
  have hNS : x p d NS = 0 := by
    by_contra hne
    have h1 : x p d NS = 1 := by
      have := hex
      rw [codeSum_nonOff] at this
      omega
    exact h (by rw [assignedCode_eq_NS x p d hex h1]; simp [NIGHT_SHIFT_CODES])
  have hNR : x p d NR = 0 := by
    by_contra hne
    have h1 : x p d NR = 1 := by
      have := hex
      rw [codeSum_nonOff] at this
      omega
    exact h (by rw [assignedCode_eq_NR x p d hex h1]; simp [NIGHT_SHIFT_CODES])
  have hCMN : x p d CMN = 0 := by
    by_contra hne
    have h1 : x p d CMN = 1 := by
      have := hex
      rw [codeSum_nonOff] at this
      omega
    exact h (by rw [assignedCode_eq_CMN x p d hex h1]; simp [NIGHT_SHIFT_CODES])
  omega

/-- C1: in the model emitted by `add_core_constraints`, for every person `p`
and day `d` such that the extracted roster assigns `p` a night code (`NS`,
`NR` or `CMN`) on `d` and no night code on `d+1`, every valuation that
satisfies the exclusivity, night-flag and 46-hour-rest constraints assigns
`p` a code in `{OFF, LTFT}` on `d+1`, and on `d+2` when it lies within the
horizon. -/
theorem C1_rest_after_night_block (P D : ℕ) (x : Valuation) (v : RestVars)
    (hex : exclusivity P D x)
    (hnf : nightFlagDef P D x v)
    (hrest : restAfterNights P D x v)
    (p : ℕ) (hp : p < P) (d : ℕ) (hd1 : d + 1 < D)
    (hnight : assignedCode x p d ∈ NIGHT_SHIFT_CODES)
    (hnot : assignedCode x p (d + 1) ∉ NIGHT_SHIFT_CODES) :
    (assignedCode x p (d + 1) = LTFT ∨ assignedCode x p (d + 1) = OFF) ∧
    (d + 2 < D →
      assignedCode x p (d + 2) = LTFT ∨ assignedCode x p (d + 2) = OFF) := by
  have hd : d < D := by omega
  -- the assigned night code's variable is valued 1, so night_flag[p, d] = 1
  have hneOFF : assignedCode x p d ≠ OFF := by
    intro hcon
    rw [hcon] at hnight
    simp [NIGHT_SHIFT_CODES] at hnight
  obtain ⟨-, h1⟩ := assignedCode_one_of_ne_OFF x p d hneOFF
  have hsum1 : 1 ≤ codeSum x NIGHT_SHIFT_CODES p d := by
    rw [codeSum_night]
    simp only [NIGHT_SHIFT_CODES, List.mem_cons, List.not_mem_nil, or_false]
      at hnight
    rcases hnight with hc | hc | hc <;> (rw [hc] at h1; omega)
  obtain ⟨hnfd, hnfd1⟩ := hnf p hp d hd
  have hnf1 : v.nightFlag p d = 1 := by omega
  -- no night code assigned on d+1, so night_flag[p, d+1] = 0
  obtain ⟨hnfd', -⟩ := hnf p hp (d + 1) hd1
  have hzero : codeSum x NIGHT_SHIFT_CODES p (d + 1) = 0 :=
    nightSum_zero_of_not_assigned x p (d + 1) (hex p hp (d + 1) hd1) hnot
  have hnf0 : v.nightFlag p (d + 1) = 0 := by omega
  -- the channelled end-of-block boolean is forced to 1
  obtain ⟨heb1, heb2, heb3, hw1, hw2⟩ := hrest
  have hub := heb1 p hp d hd hd1
  have hlb := heb3 p hp d hd hd1
  have heb : v.endBlock p d = 1 := by omega
  refine ⟨?_, fun hd2 => ?_⟩
  · exact assignedCode_of_work_zero x p (d + 1) (hw1 p hp d hd hd1 heb)
  · exact assignedCode_of_work_zero x p (d + 2) (hw2 p hp d hd hd1 hd2 heb)

/-- Witness data for `C1_rest_after_night_block`: one registrar working a
single `NR` night on day 0 of a 3-day horizon. -/
def c1wx : Valuation := fun p d s =>
  if p = 0 ∧ d = 0 ∧ s = NR then 1 else 0

/-- Witness auxiliary variables matching `c1wx`. -/
def c1wv : RestVars where
  nightFlag := fun p d => if p = 0 ∧ d = 0 then 1 else 0
  endBlock := fun p d => if p = 0 ∧ d = 0 then 1 else 0

theorem C1_rest_after_night_block_witness :
    (assignedCode c1wx 0 1 = LTFT ∨ assignedCode c1wx 0 1 = OFF) ∧
    (0 + 2 < 3 →
      assignedCode c1wx 0 2 = LTFT ∨ assignedCode c1wx 0 2 = OFF) :=
  C1_rest_after_night_block 1 3 c1wx c1wv
    (by unfold exclusivity; decide)
    (by unfold nightFlagDef; decide)
    (by
      unfold restAfterNights
      refine ⟨?_, ?_, ?_, ?_, ?_⟩ <;>
        · intro p hp d hd
          interval_cases p <;> interval_cases d <;> decide)
    0 (by decide) 0 (by decide) (by decide) (by decide)

/-- Pointwise hour bound: the hours of the extracted code of a cell are at
most the hours-weighted sum of that cell's `HOURS_BY_SHIFT` variables. -/
theorem shiftHours_assigned_le (x : Valuation) (p d : ℕ) :
    shiftHours (assignedCode x p d) ≤
      (HOURS_KEYS.map (fun s => x p d s * shiftHours s)).sum := by
  by_cases hOFF : assignedCode x p d = OFF
  · rw [hOFF]
    exact Nat.zero_le _
  · by_cases hLT : assignedCode x p d = LTFT
    · rw [hLT]
      exact Nat.zero_le _
    · obtain ⟨hmem, h1⟩ := assignedCode_one_of_ne_OFF x p d hOFF
      have hk : assignedCode x p d ∈ HOURS_KEYS := by
        have hall : ∀ c ∈ PERSON_SHIFT_CODES, c ≠ OFF → c ≠ LTFT → c ∈ HOURS_KEYS := by
          decide
        exact hall _ hmem hOFF hLT
      have hterm : x p d (assignedCode x p d) * shiftHours (assignedCode x p d) ∈
          HOURS_KEYS.map (fun s => x p d s * shiftHours s) :=
        List.mem_map_of_mem _ hk
      calc shiftHours (assignedCode x p d)
          = x p d (assignedCode x p d) * shiftHours (assignedCode x p d) := by
            rw [h1, Nat.one_mul]
        _ ≤ _ := List.single_le_sum (fun y _ => Nat.zero_le y) _ hterm

/-- C2: in any valuation satisfying the 72-hour rolling-window constraints of
`add_core_constraints`, for every person and every window of 7 consecutive
horizon days, the total catalogue hours of the extracted codes (`LV` and
`SLV` counting 9 hours each, `OFF` and `LTFT` counting 0) is at most 72. -/
theorem C2_rolling_72h (P D : ℕ) (x : Valuation)
    (h72 : rolling72 P D x)
    (p : ℕ) (hp : p < P) (start : ℕ) (hw : start + 7 ≤ D) :
    ((List.range 7).map (fun k => shiftHours (assignedCode x p (start + k)))).sum
      ≤ 72 := by
  have hle :
      ((List.range 7).map (fun k => shiftHours (assignedCode x p (start + k)))).sum ≤
      ((List.range 7).map (fun k =>
        (HOURS_KEYS.map (fun s => x p (start + k) s * shiftHours s)).sum)).sum :=
    List.sum_le_sum (fun k _ => shiftHours_assigned_le x p (start + k))
  exact hle.trans (h72 p hp start (by omega) hw)

/-- Witness data for `C2_rolling_72h`: the all-`OFF` valuation. -/
def c2wx : Valuation := fun _ _ _ => 0

theorem C2_rolling_72h_witness :
    ((List.range 7).map (fun k => shiftHours (assignedCode c2wx 0 (0 + k)))).sum
      ≤ 72 :=
  C2_rolling_72h 1 7 c2wx
    (by
      unfold rolling72
      intro p hp start hs
      interval_cases p <;> interval_cases start <;> decide)
    0 (by decide) 0 (by decide)

/-! ## WTE fairness bands (`enforce_wte_band`) and the weekly-hours band -/

/-- The WTE clamp `max(0.2, min(1.0, float(wte)))` applied throughout
`constraints.py`. -/
def clampWte (w : ℚ) : ℚ := max (1/5) (min 1 w)

/-- The `1e-6` fudge term the source subtracts/adds before `floor`/`ceil`. -/
def eps : ℚ := 1 / 1000000

/-- The per-person weight of `enforce_wte_band`: clamped WTE times the
availability fraction. -/
def bandWeight (wte avail : ℚ) : ℚ := clampWte wte * avail

/-- The summed group weight of `enforce_wte_band`. -/
def bandTotalWeight (wtes avail : List ℚ) : ℚ :=
  (List.zipWith (fun w a => bandWeight w a) wtes avail).sum

/-- Lower bound emitted by `enforce_wte_band`:
`max(0, floor(total_required · weight / total_weight · 0.75 − 1e-6))`. -/
def bandLower (R : ℕ) (w W : ℚ) : ℤ :=
  max 0 ⌊(R : ℚ) * w / W * (3/4) - eps⌋

/-- Upper bound emitted by `enforce_wte_band`:
`ceil(total_required · weight / total_weight · 1.25 + 1e-6)`, replaced by the
lower bound when smaller. -/
def bandUpper (R : ℕ) (w W : ℚ) : ℤ :=
  if ⌈(R : ℚ) * w / W * (5/4) + eps⌉ < bandLower R w W then bandLower R w W
  else ⌈(R : ℚ) * w / W * (5/4) + eps⌉

/-- The constraints `enforce_wte_band` emits for one grade × shift-class
fairness group: whenever the group is nonempty, the required total positive
and the weight sum positive, every member's total is bracketed by
`bandLower`/`bandUpper`. -/
def enforce_wte_band (R : ℕ) (wtes avail : List ℚ) (totals : ℕ → ℤ) : Prop :=
  wtes ≠ [] → 0 < R → 0 < bandTotalWeight wtes avail →
    ∀ i, i < wtes.length →
      bandLower R (bandWeight (wtes.getD i 1) (avail.getD i 1))
          (bandTotalWeight wtes avail) ≤ totals i ∧
      totals i ≤ bandUpper R (bandWeight (wtes.getD i 1) (avail.getD i 1))
          (bandTotalWeight wtes avail)

/-- The claim's per-person weight: raw WTE times active days, with the WTE of
a CoMET-eligible registrar scaled by 0.8 when the shift class is
LD-equivalent or N-equivalent.  Written from the claim's words, for
comparison with what `enforce_wte_band` computes. -/
def specAdjWeight (scaled comet : Bool) (wte act : ℚ) : ℚ :=
  (if scaled ∧ comet then (4/5) * wte else wte) * act

/-- The claim's expected share `E_i = R · w_i / Σ_j w_j` over the adjusted
weights. -/
def specExpected (R : ℕ) (wtes act : List ℚ) (comets : List Bool)
    (scaled : Bool) (i : ℕ) : ℚ :=
  (R : ℚ) * specAdjWeight scaled (comets.getD i false) (wtes.getD i 1) (act.getD i 1) /
    ((List.range wtes.length).map (fun j =>
      specAdjWeight scaled (comets.getD j false) (wtes.getD j 1) (act.getD j 1))).sum

/-- The claim's hard band around an expected share `E`: `[0.75E, 1.25E]`,
widened by an additive ±1 cushion when `E < 2`. -/
def specBandAllows (E : ℚ) (t : ℤ) : Prop :=
  if E < 2 then (3/4) * E - 1 ≤ (t : ℚ) ∧ (t : ℚ) ≤ (5/4) * E + 1
  else (3/4) * E ≤ (t : ℚ) ∧ (t : ℚ) ≤ (5/4) * E

/-- C3 counterexample: two full-time, fully available registrars, one
CoMET-eligible, over a night-equivalent requirement of 10.  The emitted hard
constraints accept a total of 3 for the CoMET-eligible registrar (the source
weights both registrars equally and rounds the 0.75-bound down), while the
claim's band — CoMET WTE scaled by 0.8, so `E = 40/9` — forbids 3. -/
theorem C3_counterexample :
    enforce_wte_band 10 [1, 1] [1, 1] (fun _ => 3) ∧
    ¬ specBandAllows (specExpected 10 [1, 1] [1, 1] [true, false] true 0) 3 := by
  constructor
  · intro hne hR hW i hi
    have hWeq : bandTotalWeight [1, 1] [1, 1] = 2 := by
      norm_num [bandTotalWeight, bandWeight, clampWte]
    have hlow : bandLower 10 (bandWeight 1 1) 2 = 3 := by
      norm_num [bandLower, bandWeight, clampWte, eps]
    have hup : bandUpper 10 (bandWeight 1 1) 2 = 7 := by
      have hc : (⌈((10 : ℕ) : ℚ) * bandWeight 1 1 / 2 * (5/4) + eps⌉ : ℤ) = 7 := by
        rw [Int.ceil_eq_iff]
        constructor <;> norm_num [bandWeight, clampWte, eps]
      unfold bandUpper
      rw [hc, hlow]
      norm_num
    have hi2 : i < 2 := by simpa using hi
    interval_cases i <;>
      · rw [hWeq]
        simp only [List.getD_cons_zero, List.getD_cons_succ]
        rw [hlow, hup]
        omega
  · have hE : specExpected 10 [1, 1] [1, 1] [true, false] true 0 = 40/9 := by
      norm_num [specExpected, specAdjWeight, List.range_succ, List.range_zero,
        List.getD]
    rw [hE]
    norm_num [specBandAllows]

/-- C3 as amended: the hard band of `enforce_wte_band` for a member with
weight `w` (clamped WTE × availability, with no CoMET scaling and no small-E
cushion) is `[max(0, ⌊0.75·E − 10⁻⁶⌋), ⌈1.25·E + 10⁻⁶⌉]` (upper clamped to
the lower bound) around `E = R·w/W`; every member's total satisfies it, and
the band admits every integer of the un-fudged interval `[0.75E, 1.25E]`. -/
theorem C3_band_bounds (R : ℕ) (wtes avail : List ℚ) (totals : ℕ → ℤ)
    (hband : enforce_wte_band R wtes avail totals)
    (hne : wtes ≠ []) (hR : 0 < R) (hW : 0 < bandTotalWeight wtes avail)
    (i : ℕ) (hi : i < wtes.length) (hav : 0 ≤ avail.getD i 1) :
    (bandLower R (bandWeight (wtes.getD i 1) (avail.getD i 1))
        (bandTotalWeight wtes avail) ≤ totals i ∧
      totals i ≤ bandUpper R (bandWeight (wtes.getD i 1) (avail.getD i 1))
        (bandTotalWeight wtes avail)) ∧
    ∀ t : ℤ,
      (3/4) * ((R : ℚ) * bandWeight (wtes.getD i 1) (avail.getD i 1) /
        bandTotalWeight wtes avail) ≤ (t : ℚ) →
      (t : ℚ) ≤ (5/4) * ((R : ℚ) * bandWeight (wtes.getD i 1) (avail.getD i 1) /
        bandTotalWeight wtes avail) →
      bandLower R (bandWeight (wtes.getD i 1) (avail.getD i 1))
          (bandTotalWeight wtes avail) ≤ t ∧
        t ≤ bandUpper R (bandWeight (wtes.getD i 1) (avail.getD i 1))
          (bandTotalWeight wtes avail) := by
  set w := bandWeight (wtes.getD i 1) (avail.getD i 1) with hw
  set W := bandTotalWeight wtes avail with hWdef
  have hw0 : 0 ≤ w := by
    rw [hw]
    unfold bandWeight clampWte
    have : (0 : ℚ) ≤ max (1/5) (min 1 (wtes.getD i 1)) := le_max_of_le_left (by norm_num)
    exact mul_nonneg this hav
  have hE0 : 0 ≤ (R : ℚ) * w / W :=
    div_nonneg (mul_nonneg (by positivity) hw0) hW.le
  refine ⟨hband hne hR hW i hi, fun t htl htu => ?_⟩
  constructor
  · unfold bandLower
    have h1 : (⌊(R : ℚ) * w / W * (3/4) - eps⌋ : ℚ) ≤ (t : ℚ) := by
      calc (⌊(R : ℚ) * w / W * (3/4) - eps⌋ : ℚ)
          ≤ (R : ℚ) * w / W * (3/4) - eps := Int.floor_le _
        _ ≤ (R : ℚ) * w / W * (3/4) := by unfold eps; linarith
        _ = (3/4) * ((R : ℚ) * w / W) := by ring
        _ ≤ (t : ℚ) := htl
    have h2 : ⌊(R : ℚ) * w / W * (3/4) - eps⌋ ≤ t := by exact_mod_cast h1
    have h3 : (0 : ℤ) ≤ t := by
      have : (0 : ℚ) ≤ (t : ℚ) := le_trans (by positivity) htl
      exact_mod_cast this
    omega
  · have hup : t ≤ ⌈(R : ℚ) * w / W * (5/4) + eps⌉ := by
      have h1 : (t : ℚ) ≤ (R : ℚ) * w / W * (5/4) + eps := by
        have : (5/4) * ((R : ℚ) * w / W) = (R : ℚ) * w / W * (5/4) := by ring
        rw [this] at htu
        unfold eps
        linarith
      calc t ≤ ⌈(t : ℚ)⌉ := by rw [Int.ceil_intCast]
        _ ≤ ⌈(R : ℚ) * w / W * (5/4) + eps⌉ := Int.ceil_le_ceil h1
    unfold bandUpper
    split
    · omega
    · exact hup

/-- Witness input for `C3_band_bounds`: the counterexample group with totals
constantly 3 (which satisfies the emitted constraints). -/
theorem C3_band_bounds_witness :
    (bandLower 10 (bandWeight 1 1) (bandTotalWeight [1, 1] [1, 1]) ≤ 3 ∧
      (3 : ℤ) ≤ bandUpper 10 (bandWeight 1 1) (bandTotalWeight [1, 1] [1, 1])) ∧
    ∀ t : ℤ,
      (3/4) * ((10 : ℚ) * bandWeight 1 1 / bandTotalWeight [1, 1] [1, 1]) ≤ (t : ℚ) →
      (t : ℚ) ≤ (5/4) * ((10 : ℚ) * bandWeight 1 1 / bandTotalWeight [1, 1] [1, 1]) →
      bandLower 10 (bandWeight 1 1) (bandTotalWeight [1, 1] [1, 1]) ≤ t ∧
        t ≤ bandUpper 10 (bandWeight 1 1) (bandTotalWeight [1, 1] [1, 1]) :=
  C3_band_bounds 10 [1, 1] [1, 1] (fun _ => 3)
    (by
      intro hne hR hW i hi
      have hWeq : bandTotalWeight [1, 1] [1, 1] = 2 := by
        norm_num [bandTotalWeight, bandWeight, clampWte]
      have hlow : bandLower 10 (bandWeight 1 1) 2 = 3 := by
        norm_num [bandLower, bandWeight, clampWte, eps]
      have hup : bandUpper 10 (bandWeight 1 1) 2 = 7 := by
        have hc : (⌈((10 : ℕ) : ℚ) * bandWeight 1 1 / 2 * (5/4) + eps⌉ : ℤ) = 7 := by
          rw [Int.ceil_eq_iff]
          constructor <;> norm_num [bandWeight, clampWte, eps]
        unfold bandUpper
        rw [hc, hlow]
        norm_num
      have hi2 : i < 2 := by simpa using hi
      interval_cases i <;>
        · rw [hWeq]
          simp only [List.getD_cons_zero, List.getD_cons_succ]
          rw [hlow, hup]
          omega)
    (by simp) (by norm_num)
    (by norm_num [bandTotalWeight, bandWeight, clampWte])
    0 (by norm_num) (by norm_num [List.getD_cons_zero])

/-- `weeks = horizon_days / 7.0` (`0.0` for an empty horizon), as computed
before the average-weekly-hours band in `add_core_constraints`. -/
def weeksQ (horizonDays : ℕ) : ℚ := (horizonDays : ℚ) / 7

/-- Lower bound of the average-weekly-hours hard band:
`floor(42 · weeks · wte − 1e-6)` with the WTE clamped to [0.2, 1]. -/
def minTotalHours (horizonDays : ℕ) (wte : ℚ) : ℤ :=
  ⌊42 * weeksQ horizonDays * clampWte wte - eps⌋

/-- Upper bound of the average-weekly-hours hard band:
`ceil(47 · weeks · wte + 1e-6)` with the WTE clamped to [0.2, 1]. -/
def maxTotalHours (horizonDays : ℕ) (wte : ℚ) : ℤ :=
  ⌈47 * weeksQ horizonDays * clampWte wte + eps⌉

/-- The average-weekly-hours constraints `add_core_constraints` emits: for
every person, whenever the horizon is nonempty (the source's `weeks > 0`
guard), the person's total hours are bracketed by the hard band.  This is
the complete emission guard in the source. -/
def avgWeeklyHours (horizonDays : ℕ) (wtes : List ℚ) (totalHours : ℕ → ℤ) : Prop :=
  0 < horizonDays → ∀ p, p < wtes.length →
    minTotalHours horizonDays (wtes.getD p 1) ≤ totalHours p ∧
    totalHours p ≤ maxTotalHours horizonDays (wtes.getD p 1)

/-- C4 counterexample: on a 7-day horizon (1 week, far below 20 weeks) the
hard total-hours band is emitted all the same — the all-zero totals of a
single full-time person violate the emitted constraints, although the claim
says no hard bound exists on horizons under 20 weeks. -/
theorem C4_counterexample : ¬ avgWeeklyHours 7 [1] (fun _ => 0) := by
  intro h
  obtain ⟨hlo, -⟩ := h (by norm_num) 0 (by norm_num)
  rw [List.getD_cons_zero] at hlo
  have hval : minTotalHours 7 1 = 41 := by
    norm_num [minTotalHours, weeksQ, clampWte, eps]
  rw [hval] at hlo
  simp only [] at hlo
  omega

/-- C4 as amended: the hard per-person total-hours band, with bounds
`⌊42·weeks·WTE − 10⁻⁶⌋` and `⌈47·weeks·WTE + 10⁻⁶⌉`, is emitted for every
nonempty horizon — there is no 20-week gate — and the emitted band contains
the claim's idealized `[⌊42·weeks·WTE⌋, ⌈47·weeks·WTE⌉]` bounds. -/
theorem C4_weekly_band_no_gate (D : ℕ) (wtes : List ℚ) (th : ℕ → ℤ)
    (h : avgWeeklyHours D wtes th) (hD : 0 < D) (p : ℕ) (hp : p < wtes.length) :
    (minTotalHours D (wtes.getD p 1) ≤ th p ∧
      th p ≤ maxTotalHours D (wtes.getD p 1)) ∧
    minTotalHours D (wtes.getD p 1) ≤ ⌊42 * weeksQ D * clampWte (wtes.getD p 1)⌋ ∧
    ⌈47 * weeksQ D * clampWte (wtes.getD p 1)⌉ ≤ maxTotalHours D (wtes.getD p 1) := by
  refine ⟨h hD p hp, ?_, ?_⟩
  · exact Int.floor_le_floor (by unfold eps; linarith)
  · exact Int.ceil_le_ceil (by unfold eps; linarith)

theorem C4_weekly_band_no_gate_witness :
    (minTotalHours 7 (([1] : List ℚ).getD 0 1) ≤ 42 ∧
      (42 : ℤ) ≤ maxTotalHours 7 (([1] : List ℚ).getD 0 1)) ∧
    minTotalHours 7 (([1] : List ℚ).getD 0 1) ≤
      ⌊42 * weeksQ 7 * clampWte (([1] : List ℚ).getD 0 1)⌋ ∧
    ⌈47 * weeksQ 7 * clampWte (([1] : List ℚ).getD 0 1)⌉ ≤
      maxTotalHours 7 (([1] : List ℚ).getD 0 1) :=
  C4_weekly_band_no_gate 7 [1] (fun _ => 42)
    (by
      intro hD p hp
      have hp1 : p < 1 := by simpa using hp
      interval_cases p
      simp only [List.getD_cons_zero]
      have h1 : minTotalHours 7 1 = 41 := by
        norm_num [minTotalHours, weeksQ, clampWte, eps]
      have h2 : maxTotalHours 7 1 = 48 := by
        unfold maxTotalHours
        rw [Int.ceil_eq_iff]
        constructor <;> norm_num [weeksQ, clampWte, eps]
      rw [h1, h2]
      omega)
    (by norm_num) 0 (by norm_num)

/-! ## Pass-2 night freezing in the global solver (`_solve`) -/

/-- An equality `x[p, d, s] = v` recorded into the CP model (or, for pass-2
search guidance, a solution hint of the same shape). -/
structure FixEq where
  p : ℕ
  d : ℕ
  s : Shift
  v : ℕ
  deriving DecidableEq, Repr

/-- The equality constraints `add_core_constraints` emits for a frozen-nights
list (its `freeze_nights` handling): each triple `(p, d, s)` with `s` a
night code and valid indices is fixed to 1, and the same code on the same
day is fixed to 0 for every other person. -/
def freezeConstraints (P D : ℕ) (freeze : List (ℕ × ℕ × Shift)) : List FixEq :=
  freeze.foldr (fun t acc =>
    if (t.2.2 = NS ∨ t.2.2 = NR ∨ t.2.2 = CMN) ∧ t.1 < P ∧ t.2.1 < D then
      ⟨t.1, t.2.1, t.2.2, 1⟩ ::
        ((List.range P).filterMap (fun q =>
          if q ≠ t.1 then some ⟨q, t.2.1, t.2.2, 0⟩ else none) ++ acc)
    else acc) []

/-- The solution hints `_solve` adds before pass 2: each frozen triple is
hinted to 1 and, for a frozen registrar night, the sibling of the pair
`{NR, CMN}` is hinted to 0 for the same person and day.  Hints bias the
search; they are not constraints of the model. -/
def freezeHints (freeze : List (ℕ × ℕ × Shift)) : List FixEq :=
  freeze.foldr (fun t acc =>
    ⟨t.1, t.2.1, t.2.2, 1⟩ ::
      ((if t.2.2 = NR then [⟨t.1, t.2.1, CMN, 0⟩]
        else if t.2.2 = CMN then [⟨t.1, t.2.1, NR, 0⟩] else []) ++ acc)) []

/-- C5 counterexample: freezing registrar 0's `NR` night on day 0 (of two
people, one day) emits the fix-to-1 and the other-person zero, but no
equality fixing the sibling `CMN` variable to 0 — the sibling zero exists
only among the search hints. -/
theorem C5_counterexample :
    FixEq.mk 0 0 NR 1 ∈ freezeConstraints 2 1 [(0, 0, NR)] ∧
    FixEq.mk 0 0 CMN 0 ∉ freezeConstraints 2 1 [(0, 0, NR)] ∧
    FixEq.mk 0 0 CMN 0 ∈ freezeHints [(0, 0, NR)] := by
  decide

/-- C5 as amended: for every frozen triple `(p, d, s) ∈ F` with valid
indices, pass 2 contains the equality `x[p,d,s] = 1` and equalities
`x[q,d,s] = 0` for every other person `q`; the sibling code of the pair
`{NR, CMN}` is set to 0 only in the pass-2 solution hints. -/
theorem C5_freeze_equalities (P D : ℕ) (freeze : List (ℕ × ℕ × Shift))
    (p d : ℕ) (s : Shift) (hmem : (p, d, s) ∈ freeze)
    (hs : s = NS ∨ s = NR ∨ s = CMN) (hp : p < P) (hd : d < D) :
    FixEq.mk p d s 1 ∈ freezeConstraints P D freeze ∧
    (∀ q, q < P → q ≠ p → FixEq.mk q d s 0 ∈ freezeConstraints P D freeze) ∧
    FixEq.mk p d s 1 ∈ freezeHints freeze ∧
    (s = NR → FixEq.mk p d CMN 0 ∈ freezeHints freeze) ∧
    (s = CMN → FixEq.mk p d NR 0 ∈ freezeHints freeze) := by
  induction freeze with
  | nil => simp at hmem
  | cons t rest ih =>
    have hstepC : ∀ e : FixEq, e ∈ freezeConstraints P D rest →
        e ∈ freezeConstraints P D (t :: rest) := by
      intro e he
      show e ∈ (if _ then _ else freezeConstraints P D rest)
      split
      · exact List.mem_cons_of_mem _ (List.mem_append_right _ he)
      · exact he
    have hstepH : ∀ e : FixEq, e ∈ freezeHints rest →
        e ∈ freezeHints (t :: rest) := by
      intro e he
      exact List.mem_cons_of_mem _ (List.mem_append_right _ he)
    rcases List.mem_cons.mp hmem with hhead | htail
    · subst hhead
      have hcond : ((p, d, s).2.2 = NS ∨ (p, d, s).2.2 = NR ∨ (p, d, s).2.2 = CMN) ∧
          (p, d, s).1 < P ∧ (p, d, s).2.1 < D := ⟨hs, hp, hd⟩
      refine ⟨?_, ?_, ?_, ?_, ?_⟩
      · show FixEq.mk p d s 1 ∈ (if _ then _ else _)
        rw [if_pos hcond]
        exact List.mem_cons_self _ _
      · intro q hq hqp
        show FixEq.mk q d s 0 ∈ (if _ then _ else _)
        rw [if_pos hcond]
        refine List.mem_cons_of_mem _ (List.mem_append_left _ ?_)
        refine List.mem_filterMap.mpr ⟨q, List.mem_range.mpr hq, ?_⟩
        rw [if_pos hqp]
      · exact List.mem_cons_self _ _
      · intro hNR
        refine List.mem_cons_of_mem _ (List.mem_append_left _ ?_)
        simp [hNR]
      · intro hCMN
        refine List.mem_cons_of_mem _ (List.mem_append_left _ ?_)
        rcases hs with h | h | h
        · simp [h] at hCMN
        · simp [h] at hCMN
        · simp [h, hCMN]
    · obtain ⟨h1, h2, h3, h4, h5⟩ := ih htail
      exact ⟨hstepC _ h1, fun q hq hqp => hstepC _ (h2 q hq hqp), hstepH _ h3,
        fun hNR => hstepH _ (h4 hNR), fun hCMN => hstepH _ (h5 hCMN)⟩

theorem C5_freeze_equalities_witness :
    FixEq.mk 0 0 NR 1 ∈ freezeConstraints 2 1 [(0, 0, NR)] ∧
    (∀ q, q < 2 → q ≠ 0 → FixEq.mk q 0 NR 0 ∈ freezeConstraints 2 1 [(0, 0, NR)]) ∧
    FixEq.mk 0 0 NR 1 ∈ freezeHints [(0, 0, NR)] ∧
    (NR = NR → FixEq.mk 0 0 CMN 0 ∈ freezeHints [(0, 0, NR)]) ∧
    (NR = CMN → FixEq.mk 0 0 NR 0 ∈ freezeHints [(0, 0, NR)]) :=
  C5_freeze_equalities 2 1 [(0, 0, NR)] 0 0 NR
    (by decide) (by decide) (by decide) (by decide)

/-! ## `solve_roster` result construction (`rostering/solver.py`) -/

/-- CP-SAT solve statuses as `solve_roster` distinguishes them. -/
inductive CpStatus where
  | optimal | feasible | infeasible | modelInvalid | unknown
  deriving DecidableEq, Repr

/-- The test `res in (cp_model.OPTIMAL, cp_model.FEASIBLE)`. -/
def isSolved : CpStatus → Bool
  | .optimal => true
  | .feasible => true
  | _ => false

/-- The six coverage-role locum columns of the emitted roster table
(`LOC_SHO_LD`, `LOC_REG_LD`, `LOC_SHO_N`, `LOC_REG_N`, `LOC_REG_CMD`,
`LOC_REG_CMN`). -/
inductive LocumCol where
  | shoLD | regLD | shoN | regN | regCMD | regCMN
  deriving DecidableEq, Repr

/-- The shape of the `SolveResult` built by `solve_roster`: per-day
per-person codes, per-day locum-column marks (`true` = the cell shows
`LOCUM`), and whether the summary carries the locum-only explanation. -/
structure RosterResult where
  success : Bool
  personCode : ℕ → ℕ → Shift
  locumMark : ℕ → LocumCol → Bool
  locumOnlyNote : Bool

/-- `solve_roster` after the two-pass `_solve`: if the pass-2 status is
`OPTIMAL` or `FEASIBLE`, the solver valuation is extracted into the roster
(first valued code per cell, locum columns marking positive locum
variables); otherwise the locum-only diagnostic scaffold is returned —
everyone `OFF`, all six locum columns marked `LOCUM` on every day, and the
explanation note recorded in the summary. -/
def solve_roster (status : CpStatus) (x : Valuation)
    (locumVal : ℕ → LocumCol → ℕ) : RosterResult :=
  if isSolved status then
    { success := true
      personCode := fun d p => assignedCode x p d
      locumMark := fun d c => decide (0 < locumVal d c)
      locumOnlyNote := false }
  else
    { success := true
      personCode := fun _ _ => OFF
      locumMark := fun _ _ => true
      locumOnlyNote := true }

/-- C6: when the pass-2 status is neither optimal nor feasible,
`solve_roster` returns (rather than raising) a roster assigning every person
`OFF` on every horizon day, marking all six coverage-role locum columns on
every day, with the non-solved explanation in the summary; with a solved
status it emits the extracted solution. -/
theorem C6_locum_only_fallback (status : CpStatus) (x : Valuation)
    (locumVal : ℕ → LocumCol → ℕ) :
    (isSolved status = false →
      (solve_roster status x locumVal).success = true ∧
      (∀ d p, (solve_roster status x locumVal).personCode d p = OFF) ∧
      (∀ d c, (solve_roster status x locumVal).locumMark d c = true) ∧
      (solve_roster status x locumVal).locumOnlyNote = true) ∧
    (isSolved status = true →
      (∀ d p, (solve_roster status x locumVal).personCode d p = assignedCode x p d) ∧
      (∀ d c, (solve_roster status x locumVal).locumMark d c =
        decide (0 < locumVal d c)) ∧
      (solve_roster status x locumVal).locumOnlyNote = false) := by
  constructor <;> intro h <;> simp [solve_roster, h]

/-! ## Staged solver: CoMET-night rest check (`sequential_solver.py`) -/

/-- `night_shift_types = [COMET_NIGHT, NIGHT_REG, NIGHT_SHO]` as listed in
`_check_night_rest_ok`. -/
def nightTypes : List Shift := [CMN, NR, NS]

/-- The `working_shifts` list of the forward branch of
`_check_night_rest_ok`: `[CMD, LDR, LDS, SD, NR, NS]` (note: no `CMN` and no
teaching/absence codes). -/
def forwardWorkingShifts : List Shift := [CMD, LDR, LDS, SD, NR, NS]

/-- The backward scan of `_check_night_rest_ok` over the lookback offsets
1..4: the first committed night whose successor day is not a night (or that
ends the roster) is the most recent block end; a night whose successor is
also a night is skipped and the scan continues further back. -/
def findBlockEndAux (D : ℕ) (r : ℕ → Shift) (idx : ℕ) : List ℕ → Option ℕ
  | [] => none
  | lb :: rest =>
    if lb ≤ idx then
      if r (idx - lb) ∈ nightTypes then
        if idx - lb + 1 < D then
          if r (idx - lb + 1) ∈ nightTypes then findBlockEndAux D r idx rest
          else some (idx - lb)
        else some (idx - lb)
      else findBlockEndAux D r idx rest
    else none

/-- The most recent night-block end found by the backward scan of
`_check_night_rest_ok` (looking back at most 4 days from `idx`). -/
def findBlockEnd (D : ℕ) (r : ℕ → Shift) (idx : ℕ) : Option ℕ :=
  findBlockEndAux D r idx [1, 2, 3, 4]

/-- `_check_night_rest_ok(night_day, doctor)` over one doctor's committed
row `r`: backward, a found block end must be at least two clear days before
`idx`; forward, when `idx` would end a night block, the single day `idx+1`
must not hold one of `forwardWorkingShifts`.  (`idx+2` is never examined.) -/
def checkNightRestOk (D : ℕ) (r : ℕ → Shift) (idx : ℕ) : Bool :=
  (match findBlockEnd D r idx with
   | some be => decide (2 ≤ idx - be - 1)
   | none => true) &&
  (!((!(decide (idx + 1 < D) && decide (r (idx + 1) ∈ nightTypes))) &&
     decide (idx + 1 < D) && decide (r (idx + 1) ∈ forwardWorkingShifts)))

/-- The WTE-adjusted night count of `_assign_single_comet_night`
(`comet_nights / wte`); `none` models `float('inf')` for a non-positive
WTE, which can never be strictly below the running minimum. -/
def wteAdjustedNights (n : ℕ) (wte : ℚ) : Option ℚ :=
  if 0 < wte then some ((n : ℚ) / wte) else none

/-- One step of the best-doctor scan of `_assign_single_comet_night`: a
doctor strictly improves the running minimum only when their cell is
currently `OFF`, their WTE-adjusted count is below the minimum, and
`_check_night_rest_ok` passes. -/
def singleNightStep (D : ℕ) (roster : ℕ → ℕ → Shift) (idx : ℕ)
    (totals : ℕ → ℕ) (best : Option (ℕ × ℚ)) (e : ℕ × ℚ) : Option (ℕ × ℚ) :=
  match wteAdjustedNights (totals e.1) e.2 with
  | none => best
  | some adj =>
    if (roster e.1 idx == OFF) &&
        (match best with
         | none => true
         | some be => decide (adj < be.2)) &&
        checkNightRestOk D (roster e.1) idx
    then some (e.1, adj) else best

theorem singleNightStep_of_none (D : ℕ) (roster : ℕ → ℕ → Shift) (idx : ℕ)
    (totals : ℕ → ℕ) (acc : Option (ℕ × ℚ)) (e : ℕ × ℚ)
    (hw : wteAdjustedNights (totals e.1) e.2 = none) :
    singleNightStep D roster idx totals acc e = acc := by
  unfold singleNightStep
  rw [hw]

theorem singleNightStep_of_some (D : ℕ) (roster : ℕ → ℕ → Shift) (idx : ℕ)
    (totals : ℕ → ℕ) (acc : Option (ℕ × ℚ)) (e : ℕ × ℚ) (adj : ℚ)
    (hw : wteAdjustedNights (totals e.1) e.2 = some adj) :
    singleNightStep D roster idx totals acc e =
      if (roster e.1 idx == OFF) &&
          (match acc with
           | none => true
           | some be => decide (adj < be.2)) &&
          checkNightRestOk D (roster e.1) idx
      then some (e.1, adj) else acc := by
  unfold singleNightStep
  rw [hw]

/-- `_assign_single_comet_night`: skip when some person already holds `CMN`
on the day; otherwise fold the best-doctor scan over the eligible list and
return the doctor assigned the singleton CoMET night (if any). -/
def assignSingleCometNight (D numPeople : ℕ) (roster : ℕ → ℕ → Shift)
    (idx : ℕ) (eligible : List (ℕ × ℚ)) (totals : ℕ → ℕ) : Option ℕ :=
  if (List.range numPeople).any (fun q => roster q idx == CMN) then none
  else (eligible.foldl (singleNightStep D roster idx totals) none).map Prod.fst

/-- The claim's forward rest condition: the two days after the night are
clear of any working code (whenever they lie within the horizon). -/
def specTwoClearAfter (D : ℕ) (r : ℕ → Shift) (idx : ℕ) : Prop :=
  (idx + 1 < D → r (idx + 1) ∉ WORK_SHIFT_CODES) ∧
  (idx + 2 < D → r (idx + 2) ∉ WORK_SHIFT_CODES)

/-- C7 counterexample roster: a single doctor, free on days 0, 1 and 3, with
a committed `LDR` long day on day 2. -/
def c7roster : ℕ → ℕ → Shift := fun p d => if p = 0 ∧ d = 2 then LDR else OFF

/-- C7 counterexample: the staged solver assigns the singleton CoMET night
on day 0 although day 2 — the second rest day after the night — carries a
committed `LDR`: the forward check of `_check_night_rest_ok` only examines
day 1, so the claim's "two clear days forward" condition fails while the
assignment happens. -/
theorem C7_counterexample :
    assignSingleCometNight 4 1 c7roster 0 [(0, 1)] (fun _ => 0) = some 0 ∧
    c7roster 0 2 = LDR ∧
    ¬ specTwoClearAfter 4 (c7roster 0) 0 := by
  refine ⟨by decide, rfl, ?_⟩
  intro h
  exact absurd (h.2 (by decide)) (by decide)

/-- C7 as amended: `_assign_single_comet_night` assigns a doctor only when
that doctor's cell is currently `OFF` and `_check_night_rest_ok` passes —
i.e. no prior night block ended with fewer than two clear days before `d`
(backward, looking back at most 4 days), and the single day `d+1` carries
none of `[CMD, LDR, LDS, SD, NR, NS]` when `d` ends a night block (forward);
the second rest day `d+2` is not checked. -/
theorem C7_single_night_rest_check (D numPeople : ℕ)
    (roster : ℕ → ℕ → Shift) (idx : ℕ) (eligible : List (ℕ × ℚ))
    (totals : ℕ → ℕ) (i : ℕ)
    (h : assignSingleCometNight D numPeople roster idx eligible totals = some i) :
    roster i idx = OFF ∧ checkNightRestOk D (roster i) idx = true := by
  unfold assignSingleCometNight at h
  by_cases hcmn : ((List.range numPeople).any (fun q => roster q idx == CMN)) = true
  · rw [if_pos hcmn] at h
    exact absurd h (by simp)
  · rw [if_neg hcmn] at h
    obtain ⟨⟨j, a⟩, hfold, hj⟩ := Option.map_eq_some'.mp h
    subst hj
    clear h hcmn
    -- fold invariant: any `some` accumulator satisfies the two conditions
    have hinv : ∀ (l : List (ℕ × ℚ)) (acc : Option (ℕ × ℚ)),
        (∀ k b, acc = some (k, b) →
          roster k idx = OFF ∧ checkNightRestOk D (roster k) idx = true) →
        ∀ k b, l.foldl (singleNightStep D roster idx totals) acc = some (k, b) →
          roster k idx = OFF ∧ checkNightRestOk D (roster k) idx = true := by
      intro l
      induction l with
      | nil => intro acc hacc k b hk; exact hacc k b hk
      | cons e rest ih =>
        intro acc hacc k b hk
        refine ih (singleNightStep D roster idx totals acc e) ?_ k b hk
        intro k' b' hstep
        cases hw : wteAdjustedNights (totals e.1) e.2 with
        | none =>
          rw [singleNightStep_of_none D roster idx totals acc e hw] at hstep
          exact hacc k' b' hstep
        | some adj =>
          rw [singleNightStep_of_some D roster idx totals acc e adj hw] at hstep
          split at hstep
          · rename_i hc
            simp only [Option.some.injEq, Prod.mk.injEq] at hstep
            obtain ⟨h1, -⟩ := hstep
            obtain ⟨hc1, hc3⟩ := Bool.and_eq_true_iff.mp hc
            obtain ⟨hc1a, -⟩ := Bool.and_eq_true_iff.mp hc1
            subst h1
            exact ⟨eq_of_beq hc1a, hc3⟩
          · exact hacc k' b' hstep
    exact hinv eligible none (by simp) j a hfold

theorem C7_single_night_rest_check_witness :
    c7roster 0 0 = OFF ∧ checkNightRestOk 4 (c7roster 0) 0 = true :=
  C7_single_night_rest_check 4 1 c7roster 0 [(0, 1)] (fun _ => 0) 0
    (by decide)

/-! ## Staged solver: unit-nights CP sub-model
(`_assign_unit_night_blocks_with_cpsat`; the nights stage passes
`unit_night_days = list(self.days)`, so sub-model day indices coincide with
full-roster day indices). -/

/-- Decision-variable existence in the unit-nights sub-model: a variable for
`(registrar, day)` is created only when the day is in range, the person is
one of the eligible registrars, and that cell of the partial roster is
currently `OFF`. -/
def unitVar (N : ℕ) (roster : ℕ → ℕ → Shift) (eligible : List (ℕ × ℚ))
    (p d : ℕ) : Bool :=
  decide (d < N) && eligible.any (fun e => e.1 == p) && (roster p d == OFF)

/-- The `working_shifts` list of the forward rest constraint in the
unit-nights sub-model: `[CMN, NR, NS, CMD, LDR, LDS, SD]`. -/
def unitForwardWorking : List Shift := [CMN, NR, NS, CMD, LDR, LDS, SD]

/-- The backward rest test of the sub-model: a recent night-block end (found
by the same backward scan as `_check_night_rest_ok`) with fewer than two
clear days before `d` forces the variable to 0. -/
def backwardBlocked (N : ℕ) (r : ℕ → Shift) (d : ℕ) : Bool :=
  match findBlockEnd N r d with
  | some be => decide (d - be - 1 < 2)
  | none => false

/-- A full window of `k` consecutive existing variables starting at `d`. -/
def unitWindow (N : ℕ) (roster : ℕ → ℕ → Shift) (eligible : List (ℕ × ℚ))
    (k p d : ℕ) : Bool :=
  (List.range k).all (fun o => unitVar N roster eligible p (d + o))

/-- Structural isolation of a variable: neither adjacent day carries a
variable for the same person (the `is_isolated` test of the source, which
looks at variable existence, not at the solution). -/
def unitIsolated (N : ℕ) (roster : ℕ → ℕ → Shift) (eligible : List (ℕ × ℚ))
    (p d : ℕ) : Bool :=
  !(decide (0 < d) && unitVar N roster eligible p (d - 1)) &&
  !(decide (d < N - 1) && unitVar N roster eligible p (d + 1))

/-- A valuation of the sub-model's variables: the night variables `x`, the
block-bonus indicators, the (objective-unused) adjacency booleans, and the
absolute fairness deviations. -/
structure UnitVal where
  x : ℕ → ℕ → ℕ
  b4 : ℕ → ℕ → ℕ
  b3 : ℕ → ℕ → ℕ
  b2 : ℕ → ℕ → ℕ
  prevConn : ℕ → ℕ → ℕ
  nextConn : ℕ → ℕ → ℕ
  absDev : ℕ → ℕ

/-- Sum of the existing night variables of one day over the eligible list. -/
def unitDaySum (N : ℕ) (roster : ℕ → ℕ → Shift) (eligible : List (ℕ × ℚ))
    (V : UnitVal) (d : ℕ) : ℕ :=
  (eligible.map (fun e => if unitVar N roster eligible e.1 d then V.x e.1 d else 0)).sum

/-- A person's assigned-night count over their existing variables. -/
def unitCount (N : ℕ) (roster : ℕ → ℕ → Shift) (eligible : List (ℕ × ℚ))
    (V : UnitVal) (p : ℕ) : ℕ :=
  ((List.range N).map (fun d => if unitVar N roster eligible p d then V.x p d else 0)).sum

/-- `sum(person.wte for _, person in unit_night_eligible)`. -/
def totalWte (eligible : List (ℕ × ℚ)) : ℚ := (eligible.map (fun e => e.2)).sum

/-- Python `int(·)` truncation toward zero of a rational. -/
def ratTrunc (q : ℚ) : ℤ := Int.tdiv q.num q.den

/-- `expected_count = int(len(unit_night_days) * wte / total_wte)` (0 when
the WTE sum is not positive). -/
def expectedCount (N : ℕ) (eligible : List (ℕ × ℚ)) (wte : ℚ) : ℤ :=
  if 0 < totalWte eligible then ratTrunc ((N : ℚ) * wte / totalWte eligible) else 0

/-- The constraints of the unit-nights CP sub-model, mirrored family by
family from `_assign_unit_night_blocks_with_cpsat`:
variable domains; exactly one night per day that has a variable; forward
rest over the next one and two days (against committed shifts, and as an
implication between variables); backward rest against recently committed
night-block ends; no variable set on a day already holding `CMN`; the
*lower-bound-only* channelling of the block-bonus indicators and of the
adjacency booleans; and the absolute-deviation channelling of the fairness
terms. -/
def unitFeasible (N : ℕ) (roster : ℕ → ℕ → Shift) (eligible : List (ℕ × ℚ))
    (V : UnitVal) : Prop :=
  (∀ e ∈ eligible, ∀ d, d < N → unitVar N roster eligible e.1 d = true →
    V.x e.1 d ≤ 1) ∧
  (∀ e ∈ eligible, ∀ d, d < N - 3 → unitWindow N roster eligible 4 e.1 d = true →
    V.b4 e.1 d ≤ 1) ∧
  (∀ e ∈ eligible, ∀ d, d < N - 2 → unitWindow N roster eligible 3 e.1 d = true →
    V.b3 e.1 d ≤ 1) ∧
  (∀ e ∈ eligible, ∀ d, d < N - 1 → unitWindow N roster eligible 2 e.1 d = true →
    V.b2 e.1 d ≤ 1) ∧
  (∀ d, d < N → eligible.any (fun e => unitVar N roster eligible e.1 d) = true →
    unitDaySum N roster eligible V d = 1) ∧
  (∀ e ∈ eligible, ∀ d, d < N → unitVar N roster eligible e.1 d = true →
    d + 1 < N → roster e.1 (d + 1) ∈ unitForwardWorking → V.x e.1 d = 0) ∧
  (∀ e ∈ eligible, ∀ d, d < N → unitVar N roster eligible e.1 d = true →
    d + 1 < N → unitVar N roster eligible e.1 (d + 1) = true →
    V.x e.1 d = 1 → V.x e.1 (d + 1) = 0) ∧
  (∀ e ∈ eligible, ∀ d, d < N → unitVar N roster eligible e.1 d = true →
    d + 2 < N → roster e.1 (d + 2) ∈ unitForwardWorking → V.x e.1 d = 0) ∧
  (∀ e ∈ eligible, ∀ d, d < N → unitVar N roster eligible e.1 d = true →
    d + 2 < N → unitVar N roster eligible e.1 (d + 2) = true →
    V.x e.1 d = 1 → V.x e.1 (d + 2) = 0) ∧
  (∀ e ∈ eligible, ∀ d, d < N → unitVar N roster eligible e.1 d = true →
    backwardBlocked N (roster e.1) d = true → V.x e.1 d = 0) ∧
  (∀ e ∈ eligible, ∀ d, d < N → unitVar N roster eligible e.1 d = true →
    roster e.1 d = CMN → V.x e.1 d = 0) ∧
  (∀ e ∈ eligible, ∀ d, d < N - 3 → unitWindow N roster eligible 4 e.1 d = true →
    ((List.range 4).map (fun o => V.x e.1 (d + o))).sum ≤ V.b4 e.1 d + 3) ∧
  (∀ e ∈ eligible, ∀ d, d < N - 2 → unitWindow N roster eligible 3 e.1 d = true →
    ((List.range 3).map (fun o => V.x e.1 (d + o))).sum ≤ V.b3 e.1 d + 2) ∧
  (∀ e ∈ eligible, ∀ d, d < N - 1 → unitWindow N roster eligible 2 e.1 d = true →
    V.x e.1 d + V.x e.1 (d + 1) ≤ V.b2 e.1 d + 1) ∧
  (∀ e ∈ eligible, ∀ d, d < N → unitVar N roster eligible e.1 d = true →
    0 < d → unitVar N roster eligible e.1 (d - 1) = true →
    V.x e.1 d + V.x e.1 (d - 1) ≤ V.prevConn e.1 d + 1) ∧
  (∀ e ∈ eligible, ∀ d, d < N → unitVar N roster eligible e.1 d = true →
    d < N - 1 → unitVar N roster eligible e.1 (d + 1) = true →
    V.x e.1 d + V.x e.1 (d + 1) ≤ V.nextConn e.1 d + 1) ∧
  (∀ e ∈ eligible,
    (List.range N).any (fun d => unitVar N roster eligible e.1 d) = true →
    (V.absDev e.1 : ℤ) =
      ((unitCount N roster eligible V e.1 : ℤ) - expectedCount N eligible e.2).natAbs)

/-- The block-bonus part of the maximised objective: `+200·b4` per existing
4-window, `+120·b3` per 3-window, `+50·b2` per 2-window. -/
def blockBonusPart (N : ℕ) (roster : ℕ → ℕ → Shift) (eligible : List (ℕ × ℚ))
    (V : UnitVal) : ℤ :=
  (eligible.map (fun e =>
    ((List.range (N - 3)).map (fun d =>
      if unitWindow N roster eligible 4 e.1 d then 200 * (V.b4 e.1 d : ℤ) else 0)).sum +
    ((List.range (N - 2)).map (fun d =>
      if unitWindow N roster eligible 3 e.1 d then 120 * (V.b3 e.1 d : ℤ) else 0)).sum +
    ((List.range (N - 1)).map (fun d =>
      if unitWindow N roster eligible 2 e.1 d then 50 * (V.b2 e.1 d : ℤ) else 0)).sum)).sum

/-- The singleton-penalty part: `−100·x` for each structurally isolated
variable (the penalty is attached only where neither neighbouring day has a
variable). -/
def singletonPart (N : ℕ) (roster : ℕ → ℕ → Shift) (eligible : List (ℕ × ℚ))
    (V : UnitVal) : ℤ :=
  (eligible.map (fun e =>
    ((List.range N).map (fun d =>
      if unitVar N roster eligible e.1 d && unitIsolated N roster eligible e.1 d
      then (-100) * (V.x e.1 d : ℤ) else 0)).sum)).sum

/-- The fairness part: `−5·|count − expected|` per registrar owning at least
one variable. -/
def fairnessPart (N : ℕ) (roster : ℕ → ℕ → Shift) (eligible : List (ℕ × ℚ))
    (V : UnitVal) : ℤ :=
  (eligible.map (fun e =>
    if (List.range N).any (fun d => unitVar N roster eligible e.1 d)
    then (-5) * (V.absDev e.1 : ℤ) else 0)).sum

/-- The maximised objective of the unit-nights sub-model. -/
def unitObjective (N : ℕ) (roster : ℕ → ℕ → Shift) (eligible : List (ℕ × ℚ))
    (V : UnitVal) : ℤ :=
  blockBonusPart N roster eligible V + singletonPart N roster eligible V +
    fairnessPart N roster eligible V

/-- C8 counterexample data: two full-time eligible registrars over a two-day
horizon with an empty partial roster. -/
def c8roster : ℕ → ℕ → Shift := fun _ _ => OFF

/-- C8 counterexample eligibility list. -/
def c8eligible : List (ℕ × ℚ) := [(0, 1), (1, 1)]

/-- C8 counterexample night assignment: registrar 0 works night 0, registrar
1 works night 1 — two isolated singleton nights, no 2-night block. -/
def c8x : ℕ → ℕ → ℕ := fun p d =>
  if (p = 0 ∧ d = 0) ∨ (p = 1 ∧ d = 1) then 1 else 0

/-- C8 counterexample valuation with all bonus indicators at 0. -/
def c8v1 : UnitVal :=
  { x := c8x, b4 := fun _ _ => 0, b3 := fun _ _ => 0, b2 := fun _ _ => 0
    prevConn := fun _ _ => 0, nextConn := fun _ _ => 0, absDev := fun _ => 0 }

/-- The same night assignment with both 2-block indicators at 1. -/
def c8v2 : UnitVal := { c8v1 with b2 := fun _ _ => 1 }

/-- C8 counterexample: two feasible valuations of the sub-model share the
same night assignment (each registrar works one isolated singleton night and
there is no 2-night block), yet their objective values are 0 and 100: the
block-bonus indicators are only lower-bounded, so the `+50` terms can be
collected without any actual block, and no `−100` singleton penalty applies
because both days carry variables for both registrars.  The objective is not
the block-shape score of the assignment that the claim describes. -/
theorem C8_counterexample :
    unitFeasible 2 c8roster c8eligible c8v1 ∧
    unitFeasible 2 c8roster c8eligible c8v2 ∧
    c8v1.x = c8v2.x ∧
    unitObjective 2 c8roster c8eligible c8v1 = 0 ∧
    unitObjective 2 c8roster c8eligible c8v2 = 100 := by
  have hexp : expectedCount 2 c8eligible 1 = 1 := by
    unfold expectedCount
    rw [if_pos]
    · have h1 : ((2 : ℕ) : ℚ) * 1 / totalWte c8eligible = 1 := by
        unfold totalWte c8eligible
        norm_num
      rw [h1]
      decide
    · unfold totalWte c8eligible
      norm_num
  have hfair : ∀ V : UnitVal, V.absDev = (fun _ => 0) → V.x = c8x →
      ∀ e ∈ c8eligible,
        (List.range 2).any (fun d => unitVar 2 c8roster c8eligible e.1 d) = true →
        (V.absDev e.1 : ℤ) =
          ((unitCount 2 c8roster c8eligible V e.1 : ℤ) -
            expectedCount 2 c8eligible e.2).natAbs := by
    intro V hdev hx e he hany
    have hcnt : ∀ p, unitCount 2 c8roster c8eligible V p =
        unitCount 2 c8roster c8eligible c8v1 p := by
      intro p
      unfold unitCount
      simp only [hx]
      rfl
    fin_cases he <;>
      · rw [hdev, hcnt, hexp]
        decide
  refine ⟨?_, ?_, rfl, by decide, by decide⟩
  · unfold unitFeasible
    repeat' apply And.intro
    all_goals first
      | exact hfair c8v1 rfl rfl
      | decide
  · unfold unitFeasible
    repeat' apply And.intro
    all_goals first
      | exact hfair c8v2 rfl rfl
      | decide

/-- The valuation with every block-bonus indicator raised to 1. -/
def setBonus (V : UnitVal) : UnitVal :=
  { V with b4 := fun _ _ => 1, b3 := fun _ _ => 1, b2 := fun _ _ => 1 }

/-- The constant bonus mass available to any feasible solution: 200 per
existing 4-window, 120 per 3-window and 50 per 2-window, independent of the
night assignment. -/
def bonusTotal (N : ℕ) (roster : ℕ → ℕ → Shift) (eligible : List (ℕ × ℚ)) : ℤ :=
  (eligible.map (fun e =>
    ((List.range (N - 3)).map (fun d =>
      if unitWindow N roster eligible 4 e.1 d then (200 : ℤ) else 0)).sum +
    ((List.range (N - 2)).map (fun d =>
      if unitWindow N roster eligible 3 e.1 d then (120 : ℤ) else 0)).sum +
    ((List.range (N - 1)).map (fun d =>
      if unitWindow N roster eligible 2 e.1 d then (50 : ℤ) else 0)).sum)).sum

theorem windowSum_le (V : UnitVal) (p d k : ℕ)
    (hx : ∀ o, o < k → V.x p (d + o) ≤ 1) :
    ((List.range k).map (fun o => V.x p (d + o))).sum ≤ k := by
  have h := List.sum_le_card_nsmul ((List.range k).map (fun o => V.x p (d + o))) 1
    (by
      intro y hy
      obtain ⟨o, ho, rfl⟩ := List.mem_map.mp hy
      exact hx o (List.mem_range.mp ho))
  simpa using h

/-- From a full window of existing variables, each member variable exists. -/
theorem unitWindow_mem (N : ℕ) (roster : ℕ → ℕ → Shift)
    (eligible : List (ℕ × ℚ)) (k p d : ℕ)
    (hw : unitWindow N roster eligible k p d = true) :
    ∀ o, o < k → unitVar N roster eligible p (d + o) = true := by
  intro o ho
  exact List.all_eq_true.mp hw o (List.mem_range.mpr ho)

/-- A variable's existence bounds its day inside the horizon. -/
theorem unitVar_lt (N : ℕ) (roster : ℕ → ℕ → Shift)
    (eligible : List (ℕ × ℚ)) (p d : ℕ)
    (h : unitVar N roster eligible p d = true) : d < N := by
  unfold unitVar at h
  obtain ⟨h1, -⟩ := Bool.and_eq_true_iff.mp h
  obtain ⟨h1a, -⟩ := Bool.and_eq_true_iff.mp h1
  exact of_decide_eq_true h1a

/-- C8 as amended: in the unit-nights sub-model, (i) a decision variable
exists only where the partial roster holds `OFF`; (ii) every day owning a
variable receives exactly one night; (iii) raising every block-bonus
indicator to 1 preserves feasibility — the indicators are only
lower-bounded, so the `+200/+120/+50` bonuses are collected per existing
window regardless of the actual night pattern — and turns the objective
into the constant bonus mass plus the singleton term (applied only to
structurally isolated variables) and the `−5·|count − expected|` fairness
term. -/
theorem C8_unit_nights_model (N : ℕ) (roster : ℕ → ℕ → Shift)
    (eligible : List (ℕ × ℚ)) (V : UnitVal)
    (hfeas : unitFeasible N roster eligible V) :
    (∀ p d, unitVar N roster eligible p d = true → roster p d = OFF) ∧
    (∀ d, d < N → eligible.any (fun e => unitVar N roster eligible e.1 d) = true →
      unitDaySum N roster eligible V d = 1) ∧
    unitFeasible N roster eligible (setBonus V) ∧
    unitObjective N roster eligible (setBonus V) =
      bonusTotal N roster eligible + singletonPart N roster eligible V +
        fairnessPart N roster eligible V := by
  obtain ⟨hxdom, hb4dom, hb3dom, hb2dom, hone, hfwd1r, hfwd1v, hfwd2r,
    hfwd2v, hback, hcmn, hb4lo, hb3lo, hb2lo, hpc, hnc, hdev⟩ := hfeas
  refine ⟨?_, hone, ?_, ?_⟩
  · intro p d h
    unfold unitVar at h
    obtain ⟨-, hc⟩ := Bool.and_eq_true_iff.mp h
    exact eq_of_beq hc
  · refine ⟨hxdom, ?_, ?_, ?_, hone, hfwd1r, hfwd1v, hfwd2r, hfwd2v, hback,
      hcmn, ?_, ?_, ?_, hpc, hnc, hdev⟩
    · intro e he d hd hw
      exact le_refl 1
    · intro e he d hd hw
      exact le_refl 1
    · intro e he d hd hw
      exact le_refl 1
    · intro e he d hd hw
      have hsum : ((List.range 4).map (fun o => V.x e.1 (d + o))).sum ≤ 4 :=
        windowSum_le V e.1 d 4 (fun o ho =>
          hxdom e he (d + o)
            (unitVar_lt N roster eligible e.1 (d + o)
              (unitWindow_mem N roster eligible 4 e.1 d hw o ho))
            (unitWindow_mem N roster eligible 4 e.1 d hw o ho))
      calc ((List.range 4).map (fun o => (setBonus V).x e.1 (d + o))).sum
          = ((List.range 4).map (fun o => V.x e.1 (d + o))).sum := rfl
        _ ≤ 4 := hsum
        _ ≤ (setBonus V).b4 e.1 d + 3 := by
            show (4 : ℕ) ≤ 1 + 3
            omega
    · intro e he d hd hw
      have hsum : ((List.range 3).map (fun o => V.x e.1 (d + o))).sum ≤ 3 :=
        windowSum_le V e.1 d 3 (fun o ho =>
          hxdom e he (d + o)
            (unitVar_lt N roster eligible e.1 (d + o)
              (unitWindow_mem N roster eligible 3 e.1 d hw o ho))
            (unitWindow_mem N roster eligible 3 e.1 d hw o ho))
      calc ((List.range 3).map (fun o => (setBonus V).x e.1 (d + o))).sum
          = ((List.range 3).map (fun o => V.x e.1 (d + o))).sum := rfl
        _ ≤ 3 := hsum
        _ ≤ (setBonus V).b3 e.1 d + 2 := by
            show (3 : ℕ) ≤ 1 + 2
            omega
    · intro e he d hd hw
      have hx0 : V.x e.1 d ≤ 1 :=
        hxdom e he d
          (unitVar_lt N roster eligible e.1 d (by
            have := unitWindow_mem N roster eligible 2 e.1 d hw 0 (by omega)
            simpa using this))
          (by
            have := unitWindow_mem N roster eligible 2 e.1 d hw 0 (by omega)
            simpa using this)
      have hx1 : V.x e.1 (d + 1) ≤ 1 :=
        hxdom e he (d + 1)
          (unitVar_lt N roster eligible e.1 (d + 1)
            (unitWindow_mem N roster eligible 2 e.1 d hw 1 (by omega)))
          (unitWindow_mem N roster eligible 2 e.1 d hw 1 (by omega))
      show V.x e.1 d + V.x e.1 (d + 1) ≤ 1 + 1
      omega
  · unfold unitObjective
    have hsing : singletonPart N roster eligible (setBonus V) =
        singletonPart N roster eligible V := rfl
    have hfairp : fairnessPart N roster eligible (setBonus V) =
        fairnessPart N roster eligible V := rfl
    rw [hsing, hfairp]
    have hbonus : blockBonusPart N roster eligible (setBonus V) =
        bonusTotal N roster eligible := by
      unfold blockBonusPart bonusTotal setBonus
      simp
    rw [hbonus]

theorem C8_unit_nights_model_witness :
    (∀ p d, unitVar 2 c8roster c8eligible p d = true → c8roster p d = OFF) ∧
    (∀ d, d < 2 →
      c8eligible.any (fun e => unitVar 2 c8roster c8eligible e.1 d) = true →
      unitDaySum 2 c8roster c8eligible c8v1 d = 1) ∧
    unitFeasible 2 c8roster c8eligible (setBonus c8v1) ∧
    unitObjective 2 c8roster c8eligible (setBonus c8v1) =
      bonusTotal 2 c8roster c8eligible + singletonPart 2 c8roster c8eligible c8v1 +
        fairnessPart 2 c8roster c8eligible c8v1 :=
  C8_unit_nights_model 2 c8roster c8eligible c8v1
    (by
      have hexp : expectedCount 2 c8eligible 1 = 1 := by
        unfold expectedCount
        rw [if_pos]
        · have h1 : ((2 : ℕ) : ℚ) * 1 / totalWte c8eligible = 1 := by
            unfold totalWte c8eligible
            norm_num
          rw [h1]
          decide
        · unfold totalWte c8eligible
          norm_num
      unfold unitFeasible
      repeat' apply And.intro
      all_goals first
        | (intro e he hany
           fin_cases he <;>
             · rw [hexp]
               decide)
        | decide)

/-! ## Staged solver: stages write only into `OFF` cells -/

/-- Variable creation of `_solve_weekday_long_days_stage`: a long-day
variable exists only for a stage weekday whose cell is currently `OFF`. -/
def weekdayLDVar (weekdayDays : List ℕ) (roster : ℕ → ℕ → Shift)
    (p d : ℕ) : Bool :=
  decide (d ∈ weekdayDays) && (roster p d == OFF)

/-- The weekday-long-days stage after extraction: cells whose `LD_REG`
variable exists and is valued 1 become `LDR`; every other cell keeps its
previous code. -/
def weekdayLDStage (weekdayDays : List ℕ) (roster : ℕ → ℕ → Shift)
    (val : ℕ → ℕ → Bool) : ℕ → ℕ → Shift :=
  fun p d =>
    if weekdayLDVar weekdayDays roster p d && val p d then LDR else roster p d

/-- The shift list of `_solve_short_days_stage`
(`[SHORT_DAY, CPD, REG_TRAINING, SHO_TRAINING]`). -/
def shortDayShifts : List Shift := [SD, CPD, TREG, TSHO]

/-- The short-days stage after extraction: variables exist only for `OFF`
cells, and the extraction loop re-checks the cell is `OFF` before writing
the valued shift (the last listed shift wins if several are valued). -/
def shortDayStage (roster : ℕ → ℕ → Shift) (val : ℕ → ℕ → Shift → Bool) :
    ℕ → ℕ → Shift :=
  fun p d =>
    if roster p d == OFF then
      ((shortDayShifts.filter (fun s => val p d s)).getLast?).getD (roster p d)
    else roster p d

/-- Availability test of `_select_doctor_for_block`: the doctor's cell is
`OFF` on every block day and nobody already holds `CMN` on any of them. -/
def blockAvailable (numPeople : ℕ) (roster : ℕ → ℕ → Shift)
    (dayIdxs : List ℕ) (p : ℕ) : Bool :=
  dayIdxs.all (fun d => (roster p d == OFF) &&
    !((List.range numPeople).any (fun q => roster q d == CMN)))

/-- The WTE-adjusted shortfall score of `_select_doctor_for_block`,
including the under/over-assignment boosts and the block-size preference for
part-time doctors. -/
def blockShortfall (targetTotal : ℕ) (totWte wte : ℚ) (nights blockSize : ℕ) : ℚ :=
  let target := (targetTotal : ℚ) * (wte / totWte)
  let s0 := target - (nights : ℚ)
  let s1 :=
    if 0 < target then
      if (nights : ℚ) / target < 9/10 then s0 + (9/10 - (nights : ℚ) / target) * 5
      else if 11/10 < (nights : ℚ) / target then s0 - ((nights : ℚ) / target - 11/10) * 3
      else s0
    else s0
  if wte ≤ 3/5 then
    if 4 ≤ blockSize then s1 - 4
    else if blockSize = 2 ∨ blockSize = 3 then s1 + 1
    else s1
  else s1

/-- One candidate step of `_select_doctor_for_block`: doctors already
selected this week are skipped; an available doctor replaces the best when
their adjusted shortfall strictly exceeds the running best (initially −1). -/
def selectStep (blockSize : ℕ) (dayIdxs : List ℕ) (numPeople : ℕ)
    (roster : ℕ → ℕ → Shift) (totWte : ℚ) (targetTotal : ℕ) (totals : ℕ → ℕ)
    (already : List ℕ) (best : Option (ℕ × ℚ)) (e : ℕ × ℚ) : Option (ℕ × ℚ) :=
  if e.1 ∈ already then best
  else if blockAvailable numPeople roster dayIdxs e.1 then
    if (match best with | none => (-1 : ℚ) | some be => be.2) <
        blockShortfall targetTotal totWte e.2 (totals e.1) blockSize
    then some (e.1, blockShortfall targetTotal totWte e.2 (totals e.1) blockSize)
    else best
  else best

/-- `_select_doctor_for_block`: the doctor with the highest adjusted
shortfall among the available, not-yet-selected eligible doctors (the total
CoMET-night demand is 7 per configured CoMET week). -/
def selectDoctorForBlock (blockSize : ℕ) (dayIdxs : List ℕ) (numPeople : ℕ)
    (roster : ℕ → ℕ → Shift) (eligible : List (ℕ × ℚ)) (totals : ℕ → ℕ)
    (already : List ℕ) (weeksCount : ℕ) : Option ℕ :=
  (eligible.foldl
    (selectStep blockSize dayIdxs numPeople roster (totalWte eligible)
      (weeksCount * 7) totals already) none).map Prod.fst

/-- Writing a selected doctor's CoMET-night block into the partial roster. -/
def applyBlock (roster : ℕ → ℕ → Shift) (i : ℕ) (dayIdxs : List ℕ) :
    ℕ → ℕ → Shift :=
  fun p d => if p = i ∧ d ∈ dayIdxs then CMN else roster p d

/-- C9: the cited staged-solver write sites touch only cells that were `OFF`
when the stage started.  (i) The weekday-long-days stage and (ii) the
short-days stage keep every non-`OFF` cell unchanged (their variables exist
only for `OFF` cells); (iii) `_select_doctor_for_block` returns only doctors
whose whole block is currently `OFF`, so writing the selected block keeps
every non-`OFF` cell unchanged. -/
theorem C9_stages_preserve_committed_cells :
    (∀ (weekdayDays : List ℕ) (roster : ℕ → ℕ → Shift) (val : ℕ → ℕ → Bool)
      (p d : ℕ), roster p d ≠ OFF →
        weekdayLDStage weekdayDays roster val p d = roster p d) ∧
    (∀ (roster : ℕ → ℕ → Shift) (val : ℕ → ℕ → Shift → Bool) (p d : ℕ),
      roster p d ≠ OFF → shortDayStage roster val p d = roster p d) ∧
    (∀ (blockSize : ℕ) (dayIdxs : List ℕ) (numPeople : ℕ)
      (roster : ℕ → ℕ → Shift) (eligible : List (ℕ × ℚ)) (totals : ℕ → ℕ)
      (already : List ℕ) (weeksCount : ℕ) (i : ℕ),
      selectDoctorForBlock blockSize dayIdxs numPeople roster eligible totals
        already weeksCount = some i →
      (∀ d ∈ dayIdxs, roster i d = OFF) ∧
      (∀ p d, roster p d ≠ OFF → applyBlock roster i dayIdxs p d = roster p d)) := by
  refine ⟨?_, ?_, ?_⟩
  · intro weekdayDays roster val p d hne
    unfold weekdayLDStage
    split
    · rename_i hc
      obtain ⟨hv, -⟩ := Bool.and_eq_true_iff.mp hc
      obtain ⟨-, hoff⟩ := Bool.and_eq_true_iff.mp hv
      exact absurd (eq_of_beq hoff) hne
    · rfl
  · intro roster val p d hne
    unfold shortDayStage
    split
    · rename_i hc
      exact absurd (eq_of_beq hc) hne
    · rfl
  · intro blockSize dayIdxs numPeople roster eligible totals already weeksCount i h
    have havail : blockAvailable numPeople roster dayIdxs i = true := by
      unfold selectDoctorForBlock at h
      obtain ⟨⟨j, a⟩, hfold, hj⟩ := Option.map_eq_some'.mp h
      have hji : j = i := hj
      subst hji
      have hinv : ∀ (l : List (ℕ × ℚ)) (acc : Option (ℕ × ℚ)),
          (∀ k b, acc = some (k, b) → blockAvailable numPeople roster dayIdxs k = true) →
          ∀ k b, l.foldl (selectStep blockSize dayIdxs numPeople roster
            (totalWte eligible) (weeksCount * 7) totals already) acc = some (k, b) →
            blockAvailable numPeople roster dayIdxs k = true := by
        intro l
        induction l with
        | nil => intro acc hacc k b hk; exact hacc k b hk
        | cons e rest ih =>
          intro acc hacc k b hk
          refine ih _ ?_ k b hk
          intro k' b' hstep
          unfold selectStep at hstep
          split at hstep
          · exact hacc k' b' hstep
          · split at hstep
            · rename_i hav
              split at hstep
              · simp only [Option.some.injEq, Prod.mk.injEq] at hstep
                obtain ⟨h1, -⟩ := hstep
                subst h1
                exact hav
              · exact hacc k' b' hstep
            · exact hacc k' b' hstep
      exact hinv eligible none (by simp) j a hfold
    have hdays : ∀ d ∈ dayIdxs, roster i d = OFF := by
      intro d hd
      have := List.all_eq_true.mp havail d hd
      obtain ⟨hoff, -⟩ := Bool.and_eq_true_iff.mp this
      exact eq_of_beq hoff
    refine ⟨hdays, ?_⟩
    intro p d hne
    unfold applyBlock
    split
    · rename_i hc
      obtain ⟨hp, hd⟩ := hc
      subst hp
      exact absurd (hdays d hd) hne
    · rfl

/-! ## Weekend blocks and the final-Saturday boundary
(`add_core_constraints`, constraint 7f).  Calendar days are serial numbers:
consecutive dates have consecutive serials and `weekday d = d % 7`
(0 = Monday, 5 = Saturday, 6 = Sunday). -/

/-- The horizon day list as serial day numbers. -/
def rotaDays (start len : ℕ) : List ℕ := (List.range len).map (fun k => start + k)

/-- `weekend_blocks`: for every index `i < len(days) − 1` whose day is a
Saturday, the pair of the Saturday index and the following Sunday index
(when day `i+1` is a Sunday).  A Saturday at the final index is excluded by
the loop bound. -/
def weekendBlocks (days : List ℕ) : List (ℕ × Option ℕ) :=
  (List.range (days.length - 1)).filterMap (fun i =>
    if (days.getD i 0) % 7 = 5 then
      some (i, if (days.getD (i + 1) 0) % 7 = 6 then some (i + 1) else none)
    else none)

/-- A weekend block is worked when a working code falls on its Saturday or
its Sunday (the `wknd_work` boolean of the model). -/
def blockWorked (r : ℕ → Shift) (b : ℕ × Option ℕ) : Bool :=
  decide (r b.1 ∈ WORK_SHIFT_CODES) ||
    b.2.elim false (fun j => decide (r j ∈ WORK_SHIFT_CODES))

/-- The number of weekend blocks a person works — the quantity the hard and
firm weekend caps bound. -/
def weekendsWorked (days : List ℕ) (r : ℕ → Shift) : ℕ :=
  ((weekendBlocks days).filter (fun b => blockWorked r b)).length

/-- The hard weekend cap `ceil(total_weekends · WTE / 2)`. -/
def weekendCap (totalWeekends : ℕ) (wte : ℚ) : ℤ :=
  ⌈(totalWeekends : ℚ) * clampWte wte / 2⌉

/-- The firm weekend cap `ceil(total_weekends · WTE / 3)`. -/
def weekendFirmCap (totalWeekends : ℕ) (wte : ℚ) : ℤ :=
  ⌈(totalWeekends : ℚ) * clampWte wte / 3⌉

theorem rotaDays_getD (start len i : ℕ) (hi : i < len) :
    (rotaDays start len).getD i 0 = start + i := by
  unfold rotaDays
  rw [List.getD_eq_getElem?_getD]
  simp [List.getElem?_map, List.getElem?_range, hi]

/-- C10: when the horizon's final day is a Saturday, that Saturday belongs
to no weekend block (the block loop stops one short of the last index), so
codes assigned on it change nobody's weekend total — and therefore cannot be
limited by the hard cap `⌈N·WTE/2⌉` or the firm cap `⌈N·WTE/3⌉`, which
bound only that total. -/
theorem C10_final_saturday_uncapped (start len : ℕ) (hlen : 1 ≤ len)
    (hsat : (start + (len - 1)) % 7 = 5) :
    (∀ b ∈ weekendBlocks (rotaDays start len),
      b.1 ≠ len - 1 ∧ b.2 ≠ some (len - 1)) ∧
    (∀ r r' : ℕ → Shift, (∀ d, d ≠ len - 1 → r d = r' d) →
      weekendsWorked (rotaDays start len) r =
        weekendsWorked (rotaDays start len) r') := by
  have hlenDays : (rotaDays start len).length = len := by
    unfold rotaDays
    simp
  have hmem : ∀ b ∈ weekendBlocks (rotaDays start len),
      b.1 ≠ len - 1 ∧ b.2 ≠ some (len - 1) := by
    intro b hb
    obtain ⟨i, hi, hf⟩ := List.mem_filterMap.mp hb
    rw [List.mem_range, hlenDays] at hi
    split at hf
    · rename_i hsatI
      have hb1 : b.1 = i := by
        cases hf
        rfl
      constructor
      · rw [hb1]
        omega
      · cases hf
        intro hcon
        simp only [Option.some.injEq] at hcon
        split at hcon
        · rename_i hsun
          simp only [Option.some.injEq] at hcon
          have hieq : i + 1 = len - 1 := hcon
          rw [hieq] at hsun
          rw [rotaDays_getD start len (len - 1) (by omega)] at hsun
          omega
        · exact absurd hcon (by simp)
    · exact absurd hf (by simp)
  refine ⟨hmem, ?_⟩
  intro r r' hagree
  unfold weekendsWorked
  have hfilter : (weekendBlocks (rotaDays start len)).filter
      (fun b => blockWorked r b) =
      (weekendBlocks (rotaDays start len)).filter (fun b => blockWorked r' b) := by
    apply List.filter_congr
    intro b hb
    obtain ⟨hb1, hb2⟩ := hmem b hb
    unfold blockWorked
    rw [hagree b.1 hb1]
    cases hb2v : b.2 with
    | none => rfl
    | some j =>
      have hj : j ≠ len - 1 := by
        intro hcon
        rw [hb2v, hcon] at hb2
        exact hb2 rfl
      simp only [Option.elim_some]
      rw [hagree j hj]
  rw [hfilter]

theorem C10_final_saturday_uncapped_witness :
    (∀ b ∈ weekendBlocks (rotaDays 0 13),
      b.1 ≠ 13 - 1 ∧ b.2 ≠ some (13 - 1)) ∧
    (∀ r r' : ℕ → Shift, (∀ d, d ≠ 13 - 1 → r d = r' d) →
      weekendsWorked (rotaDays 0 13) r = weekendsWorked (rotaDays 0 13) r') :=
  C10_final_saturday_uncapped 0 13 (by decide) (by decide)

end Rota
